import Mathlib

/-!
Verification development for the `comanda` workflow core.

Shallow embedding of:
* the chunker (`package chunker`: `SplitFile`, `validateConfig`, `splitByLines`,
  `splitByBytes`, `splitByTokens`, `CleanupChunks`);
* the model registry (`package models`: `ModelRegistry.ValidateModel` with the
  default seeded registry);
* the provider resolver (`package models`: `defaultDetectProvider`,
  `isModelAvailableLocally`).

File contents, scanner lines, Go ints and Go maps are modelled as Lean lists,
`Int` and total functions; effectful collaborators (filesystem, HTTP) are
modelled by explicit state or by an abstract outcome parameter.
-/

namespace Comanda

/-! ## Go string primitives

Modelled character-wise over `String.data` so that the kernel can evaluate
them (`String.toLower`, `String.trim`, `String.split` from core get stuck on
`Substring` internals).  All model inputs in this development are ASCII, where
these agree with Go's `strings` package. -/

/-- Go `unicode.IsSpace` (the ASCII and Latin-1 white space characters). -/
def isGoSpace (c : Char) : Bool :=
  c = ' ' || c = '\t' || c = '\n' || c = '\x0b' || c = '\x0c' || c = '\r' ||
  c = '\x85' || c = '\xa0'

/-- Go `strings.ToLower` (ASCII range; `Char.toLower` lowers only 'A'-'Z'). -/
def goToLower (s : String) : String := ⟨s.data.map Char.toLower⟩

/-- Go `strings.TrimSpace`: drop white space from both ends. -/
def goTrimSpace (s : String) : String :=
  ⟨((s.data.dropWhile isGoSpace).reverse.dropWhile isGoSpace).reverse⟩

/-- Go `strings.HasPrefix`. -/
def goStartsWith (s pre : String) : Bool := pre.data.isPrefixOf s.data

/-- Worker for `fieldsGo`: `cur` is the current (reversed) run of non-space
characters; a space or the end of the input flushes it. -/
def fieldsGoCore : List Char → List Char → List (List Char)
  | [], cur => if cur = [] then [] else [cur.reverse]
  | c :: cs, cur =>
    if isGoSpace c then
      if cur = [] then fieldsGoCore cs []
      else cur.reverse :: fieldsGoCore cs []
    else fieldsGoCore cs (c :: cur)

/-- Go `strings.Fields` over the characters: the maximal runs of non-space
characters, in order. -/
def fieldsGo (l : List Char) : List (List Char) := fieldsGoCore l []

/-! ## Chunker data model (ChunkConfig, ChunkResult, errors) -/

/-- Error taxonomy of the chunker.  The Go code builds `fmt.Errorf` values; the
distinguishable cases are modelled as constructors. -/
inductive ChunkError where
  | invalidMethod (m : String)
  | invalidSize (s : Int)
  | limitExceeded (total maxChunks : Int)
  | mkdirFailed
  | unsupportedMethod (m : String)
  deriving Repr, DecidableEq

/-- `ChunkConfig` from the source: split mode, chunk size, overlap, max chunks.
Go `int` fields are modelled as `Int`. -/
structure ChunkConfig where
  By : String
  Size : Int
  Overlap : Int
  MaxChunks : Int
  deriving Repr, DecidableEq

/-- `ChunkResult`: chunk artifact paths, scratch directory, realized count. -/
structure ChunkResult where
  ChunkPaths : List String
  TempDir : String
  TotalChunks : Nat
  deriving Repr, DecidableEq

/-- The `validMethods` set from `validateConfig`. -/
def validMethods : List String := ["lines", "bytes", "tokens"]

/-- `validateConfig`: rejects an unknown split method and a non-positive size,
clamps a negative overlap to 0, defaults a non-positive maxChunks to 100.
Go mutates the config through a pointer; here the updated config is returned. -/
def validateConfig (config : ChunkConfig) : Except ChunkError ChunkConfig :=
  if !(validMethods.contains (goToLower config.By)) then
    .error (.invalidMethod config.By)
  else if config.Size ≤ 0 then
    .error (.invalidSize config.Size)
  else
    let c1 := if config.Overlap < 0 then { config with Overlap := 0 } else config
    let c2 := if c1.MaxChunks ≤ 0 then { c1 with MaxChunks := 100 } else c1
    .ok c2

/-- The chunk-emission loop shared (textually repeated) by `splitByLines`,
`splitByBytes` and `splitByTokens`:
`for start := 0; start < total; start += config.Size - config.Overlap`,
breaking when `chunkIndex >= config.MaxChunks` and after the chunk whose end
reaches the total.  `start` is an `Int` because the Go step `Size - Overlap`
may be non-positive.  `(units.drop start.toNat).take (e - start).toNat` is
Go's `units[start:e]` for `0 ≤ start ≤ e ≤ total` (the only regime reachable
with the validated `Overlap ≤ Size`; a negative `start` would panic in Go).
Termination: each iteration increments `chunkIndex`, and the loop breaks once
`chunkIndex` reaches `MaxChunks`. -/
def chunkLoop {α : Type} (units : List α) (size overlap maxChunks : Int)
    (start : Int) (chunkIndex : Nat) (acc : List (List α)) :
    List (List α) × Nat :=
  if start < (units.length : Int) then
    if (chunkIndex : Int) ≥ maxChunks then (acc, chunkIndex)
    else if min (start + size) (units.length : Int) ≥ (units.length : Int) then
      (acc ++ [(units.drop start.toNat).take
          (min (start + size) (units.length : Int) - start).toNat],
       chunkIndex + 1)
    else
      chunkLoop units size overlap maxChunks (start + (size - overlap))
        (chunkIndex + 1)
        (acc ++ [(units.drop start.toNat).take
          (min (start + size) (units.length : Int) - start).toNat])
  else (acc, chunkIndex)
termination_by (maxChunks - chunkIndex).toNat
decreasing_by
  rename_i _ h2 _
  simp only [not_le] at h2
  omega

/-- `splitByLines`, after the scanner pre-scan: the file is the list of its
lines.  Returns the Go return value (`Except` of joined chunk contents and
`chunkIndex`) paired with the list of chunk contents actually written to the
scratch directory (empty on the fail-fast paths). -/
def splitByLines (lines : List String) (config : ChunkConfig) :
    Except ChunkError (List String × Nat) × List String :=
  let lineCount := lines.length
  if lineCount = 0 then
    (.ok ([""], 1), [""])
  else
    let totalChunks : Int := ((lineCount : Int) + config.Size - 1) / config.Size
    if totalChunks > config.MaxChunks then
      (.error (.limitExceeded totalChunks config.MaxChunks), [])
    else
      let r := chunkLoop lines config.Size config.Overlap config.MaxChunks 0 0 []
      let contents := r.1.map (String.intercalate "\n")
      (.ok (contents, r.2), contents)

/-- `splitByBytes`, after `Stat`: the file is the list of its bytes; each chunk
is the raw byte slice `[offset:end)` read via seek and written verbatim. -/
def splitByBytes (data : List Nat) (config : ChunkConfig) :
    Except ChunkError (List (List Nat) × Nat) × List (List Nat) :=
  let fileSize := data.length
  if fileSize = 0 then
    (.ok ([[]], 1), [[]])
  else
    let totalChunks : Int := ((fileSize : Int) + config.Size - 1) / config.Size
    if totalChunks > config.MaxChunks then
      (.error (.limitExceeded totalChunks config.MaxChunks), [])
    else
      let r := chunkLoop data config.Size config.Overlap config.MaxChunks 0 0 []
      (.ok (r.1, r.2), r.1)

/-- Go `strings.Fields`: split on whitespace runs, dropping empty pieces. -/
def goFields (s : String) : List String :=
  (fieldsGo s.data).map fun cs => String.mk cs

/-- `splitByTokens`, after the scanner pre-scan: tokens are the concatenation
of `strings.Fields` over the lines; chunks are joined with a single space. -/
def splitByTokens (lines : List String) (config : ChunkConfig) :
    Except ChunkError (List String × Nat) × List String :=
  let tokens := (lines.map goFields).flatten
  let tokenCount := tokens.length
  if tokenCount = 0 then
    (.ok ([""], 1), [""])
  else
    let totalChunks : Int := ((tokenCount : Int) + config.Size - 1) / config.Size
    if totalChunks > config.MaxChunks then
      (.error (.limitExceeded totalChunks config.MaxChunks), [])
    else
      let r := chunkLoop tokens config.Size config.Overlap config.MaxChunks 0 0 []
      let contents := r.1.map (String.intercalate " ")
      (.ok (contents, r.2), contents)

/-! ## SplitFile and CleanupChunks

`SplitFile` creates a scratch directory, dispatches on the (lower-cased) split
method and, when the mode function errors, removes the directory and returns
nil.  The effectful collaborators — `os.MkdirTemp` and the outcome of the mode
function's file I/O (which includes read and write failures besides the pure
limit check) — are abstracted into a `SplitEnv`. -/

/-- Whether the scratch directory exists when `SplitFile` returns. -/
inductive TempDirState where
  | notCreated
  | created
  | removed
  deriving Repr, DecidableEq

/-- Abstracted collaborators of `SplitFile`: whether `os.MkdirTemp` succeeds,
the directory name it produces, and the value returned by each mode function
(`splitByLines` / `splitByBytes` / `splitByTokens`: chunk paths and count, or
any error including read/write failures). -/
structure SplitEnv where
  mkdirOk : Bool
  tempDir : String
  linesOutcome : Except ChunkError (List String × Nat)
  bytesOutcome : Except ChunkError (List String × Nat)
  tokensOutcome : Except ChunkError (List String × Nat)

/-- `SplitFile`: validate, create the scratch directory, dispatch on
`strings.ToLower(config.By)`; on a mode-function error remove the directory
and return nil.  The `default` switch case returns without removing the
directory, exactly as in the source (unreachable after validation). -/
def SplitFile (env : SplitEnv) (config : ChunkConfig) :
    Except ChunkError ChunkResult × TempDirState :=
  match validateConfig config with
  | .error e => (.error e, .notCreated)
  | .ok c =>
    if env.mkdirOk = false then (.error .mkdirFailed, .notCreated)
    else
      let outcome : Option (Except ChunkError (List String × Nat)) :=
        if goToLower c.By = "lines" then some env.linesOutcome
        else if goToLower c.By = "bytes" then some env.bytesOutcome
        else if goToLower c.By = "tokens" then some env.tokensOutcome
        else none
      match outcome with
      | none => (.error (.unsupportedMethod c.By), .created)
      | some (.error e) => (.error e, .removed)
      | some (.ok (paths, n)) => (.ok ⟨paths, env.tempDir, n⟩, .created)

/-- `os.RemoveAll` on a filesystem modelled as the set of existing paths:
deletes the path and everything under it; returns no error even when the path
does not exist. -/
def removeAllGo (fs : String → Bool) (path : String) : String → Bool :=
  fun p => if p = path || goStartsWith p (path ++ "/") then false else fs p

/-- `CleanupChunks`: nil result or empty TempDir is a no-op returning nil;
otherwise `os.RemoveAll(result.TempDir)`.  The returned `Option ChunkError`
models the Go error value (always nil here, as `RemoveAll` reports success
even on a missing path). -/
def CleanupChunks (fs : String → Bool) (result : Option ChunkResult) :
    (String → Bool) × Option ChunkError :=
  match result with
  | none => (fs, none)
  | some r =>
    if r.TempDir = "" then (fs, none)
    else (removeAllGo fs r.TempDir, none)

/-! ## Model registry (`package models`, registry part)

The Go maps `models` and `families` are modelled as total functions that
return `[]` on unknown keys, seeded exactly as `initializeDefaultModels`. -/

/-- The seeded `models` map of the global registry. -/
def defaultModels : String → List String := fun provider =>
  if provider = "anthropic" then
    ["claude-3-5-sonnet-20241022", "claude-3-5-sonnet-latest",
     "claude-3-5-haiku-latest", "claude-3-7-sonnet-20250219",
     "claude-3-7-sonnet-latest", "claude-3-5-haiku-20241022",
     "claude-opus-4-20250514", "claude-sonnet-4-20250514"]
  else if provider = "openai" then
    ["gpt-4o", "gpt-4o-audio-preview", "o1", "o3-mini", "o1-pro", "o4-mini",
     "gpt-4.1", "o3-pro", "o3", "chatgpt-4o-latest"]
  else if provider = "xai" then
    ["grok-beta", "grok-vision-beta", "grok-4", "grok-4-heavy"]
  else if provider = "deepseek" then
    ["deepseek-chat", "deepseek-coder", "deepseek-vision", "deepseek-reasoner"]
  else if provider = "google" then
    ["gemini-2.5-pro", "gemini-2.5-flash", "gemini-2.5-flash-lite",
     "gemini-1.5-flash", "gemini-1.5-pro", "gemini-1.0-pro", "aqa"]
  else if provider = "moonshot" then
    ["moonshot-v1-8k", "moonshot-v1-32k", "moonshot-v1-128k", "moonshot-v1-auto"]
  else []

/-- The seeded `families` map of the global registry. -/
def defaultFamilies : String → List String := fun provider =>
  if provider = "anthropic" then
    ["claude-3-5-sonnet", "claude-3-5-haiku", "claude-3-7-sonnet",
     "claude-opus-4", "claude-sonnet-4"]
  else if provider = "google" then
    ["gemini-1.5", "gemini-2.5"]
  else if provider = "moonshot" then
    ["moonshot-"]
  else []

/-- `ModelRegistry`: provider → exact names, provider → family name starts. -/
structure ModelRegistry where
  models : String → List String
  families : String → List String

/-- The process-wide `globalRegistry` as seeded at startup. -/
def globalRegistry : ModelRegistry := ⟨defaultModels, defaultFamilies⟩

/-- `ModelRegistry.ValidateModel`: trim and lower-case the name, then accept
on an exact match against `models[provider]` or when a registered family
string of `families[provider]` starts the name. -/
def ModelRegistry.ValidateModel (r : ModelRegistry)
    (provider modelName : String) : Bool :=
  let m := goTrimSpace (goToLower modelName)
  (r.models provider).any (fun valid => m == valid) ||
    (r.families provider).any (fun family => goStartsWith m family)

/-! ## Provider resolver (`package models`, provider part)

Each provider capability is identified by a tag; the `SupportsModel`
predicates and the probe outcome live in a `ResolverEnv` (their
implementations are collaborators of `defaultDetectProvider`). -/

/-- The provider capabilities constructed by `defaultDetectProvider`. -/
inductive ProviderId where
  | ollama
  | google
  | anthropic
  | xai
  | deepseek
  | moonshot
  | openai
  deriving Repr, DecidableEq

/-- The collaborators of `defaultDetectProvider`: each constructed provider's
`SupportsModel` predicate, and the result of `isModelAvailableLocally`. -/
structure ResolverEnv where
  ollamaSupports : String → Bool
  localAvailable : String → Bool
  googleSupports : String → Bool
  anthropicSupports : String → Bool
  xaiSupports : String → Bool
  deepseekSupports : String → Bool
  moonshotSupports : String → Bool
  openaiSupports : String → Bool

/-- The `providers` slice of `defaultDetectProvider`, in source order
(most to least name-specific). -/
def hostedProviders (env : ResolverEnv) : List (ProviderId × (String → Bool)) :=
  [(.google, env.googleSupports), (.anthropic, env.anthropicSupports),
   (.xai, env.xaiSupports), (.deepseek, env.deepseekSupports),
   (.moonshot, env.moonshotSupports), (.openai, env.openaiSupports)]

/-- `defaultDetectProvider`: prefer Ollama when it both claims the name and
the model is actually present locally; otherwise the first hosted provider
whose predicate matches; otherwise fall back to Ollama unconditionally. -/
def defaultDetectProvider (env : ResolverEnv) (modelName : String) : ProviderId :=
  if env.ollamaSupports modelName && env.localAvailable modelName then
    .ollama
  else
    match (hostedProviders env).find? (fun pr => pr.2 modelName) with
    | some pr => pr.1
    | none => .ollama

/-! ## Local-availability probe (`isModelAvailableLocally`) -/

/-- The body of the Ollama `/api/tags` response as the probe sees it:
unreadable, unparsable, or a parsed list of tag names. -/
inductive OllamaBody where
  | readError
  | malformed
  | parsed (tags : List String)
  deriving Repr, DecidableEq

/-- The HTTP outcome of `client.Get("http://localhost:11434/api/tags")`. -/
inductive OllamaHttp where
  | transportError
  | response (status : Nat) (body : OllamaBody)
  deriving Repr, DecidableEq

/-- The per-tag match of the probe's loop: exact lower-cased equality, base
name before a `:` tag, or the requested name as a start followed by `:` or
`.` (byte indexing in Go; character indexing here, identical on ASCII). -/
def localNameMatches (modelNameLower : String) (tagName : String) : Bool :=
  let full := goToLower tagName
  if full == modelNameLower then true
  else if full.data.contains ':' &&
      (⟨full.data.takeWhile (fun c => c ≠ ':')⟩ : String) == modelNameLower then
    true
  else if goStartsWith full modelNameLower then
    let next : String := ⟨full.data.drop modelNameLower.data.length⟩
    goStartsWith next ":" || goStartsWith next "."
  else false

/-- `isModelAvailableLocally`: any transport error, non-200 status, body read
error or JSON parse error answers `false`; otherwise scan the tags with
`localNameMatches`. -/
def isModelAvailableLocally (resp : OllamaHttp) (modelName : String) : Bool :=
  match resp with
  | .transportError => false
  | .response status body =>
    if status ≠ 200 then false
    else
      match body with
      | .readError => false
      | .malformed => false
      | .parsed tags => tags.any (localNameMatches (goToLower modelName))

/-! ## Helper lemmas -/

/-- What `validateConfig` guarantees about an accepted configuration: the
split method is kept and recognized, the size is positive, the overlap
non-negative and `MaxChunks` positive. -/
theorem validateConfig_ok_fields {config c : ChunkConfig}
    (hv : validateConfig config = .ok c) :
    c.By = config.By ∧ validMethods.contains (goToLower config.By) = true ∧
    0 < c.Size ∧ 0 ≤ c.Overlap ∧ 0 < c.MaxChunks := by
  simp only [validateConfig] at hv
  split_ifs at hv with h1 h2 h3 h4 h5 <;>
    first
    | exact Except.noConfusion hv
    | (simp only [Except.ok.injEq] at hv
       subst hv
       simp only [Bool.not_eq_true', Bool.not_eq_eq_eq_not, Bool.not_true] at h1
       dsimp only at * <;>
       refine ⟨rfl, by simpa using h1, ?_, ?_, ?_⟩ <;> omega)
    | (simp only [Except.ok.injEq] at hv
       subst hv
       simp only [Bool.not_eq_true', Bool.not_eq_eq_eq_not, Bool.not_true] at h1
       refine ⟨rfl, by simpa using h1, ?_, ?_, ?_⟩ <;> omega)

/-- The accepted split method, lower-cased, is one of the three recognized
values. -/
theorem validateConfig_method {config c : ChunkConfig}
    (hv : validateConfig config = .ok c) :
    goToLower c.By = "lines" ∨ goToLower c.By = "bytes" ∨
      goToLower c.By = "tokens" := by
  obtain ⟨hBy, hcont, -, -, -⟩ := validateConfig_ok_fields hv
  rw [hBy]
  have hmem : goToLower config.By ∈ validMethods := by simpa using hcont
  simpa [validMethods] using hmem

/-- The chunk-emission loop never grows the artifact list or the chunk index
beyond `maxChunks`: the per-iteration cap check breaks out first.  This holds
for any step, in particular a zero step (`overlap = size`). -/
theorem chunkLoop_le {α : Type} (units : List α) (size overlap maxChunks : Int)
    (start : Int) (ci : Nat) (acc : List (List α))
    (hacc : acc.length = ci) (hci : (ci : Int) ≤ maxChunks) :
    ((chunkLoop units size overlap maxChunks start ci acc).1).length ≤
      maxChunks.toNat ∧
    ((chunkLoop units size overlap maxChunks start ci acc).2 : Int) ≤
      maxChunks := by
  induction start, ci, acc using chunkLoop.induct units size overlap maxChunks with
  | case1 start ci acc h1 h2 =>
    rw [chunkLoop, if_pos h1, if_pos h2]
    dsimp only
    constructor <;> omega
  | case2 start ci acc h1 h2 h3 =>
    rw [chunkLoop, if_pos h1, if_neg h2, if_pos h3]
    dsimp only
    simp only [List.length_append, List.length_singleton]
    constructor <;> omega
  | case3 start ci acc h1 h2 h3 ih =>
    rw [chunkLoop, if_pos h1, if_neg h2, if_neg h3]
    exact ih (by simp [hacc]) (by omega)
  | case4 start ci acc h1 =>
    rw [chunkLoop, if_neg h1]
    dsimp only
    constructor <;> omega

/-- Every name seeded into the default `models` map is already trimmed and
lower-cased, so normalization fixes it. -/
theorem defaultModels_norm_fixed (p : String) :
    ∀ n ∈ defaultModels p, goTrimSpace (goToLower n) = n := by
  intro n hn
  simp only [defaultModels] at hn
  split_ifs at hn <;> fin_cases hn <;> decide

/-- `List.find?` returns a match at an index no larger than any matching
index. -/
theorem find_first_match {α : Type} (P : α → Bool) (l : List α) :
    ∀ (i : Nat) (hi : i < l.length), P (l.get ⟨i, hi⟩) = true →
    ∃ (k : Nat) (hk : k < l.length), k ≤ i ∧ P (l.get ⟨k, hk⟩) = true ∧
      l.find? P = some (l.get ⟨k, hk⟩) := by
  induction l with
  | nil => intro i hi _; simp at hi
  | cons x xs ih =>
    intro i hi hp
    by_cases hx : P x = true
    · refine ⟨0, by simp, Nat.zero_le _, by simpa using hx, ?_⟩
      simp [List.find?, hx]
    · cases i with
      | zero => exact absurd (by simpa using hp) hx
      | succ i' =>
        have hi' : i' < xs.length := by simpa using hi
        have hp' : P (xs.get ⟨i', hi'⟩) = true := by simpa using hp
        obtain ⟨k, hk, hki, hPk, hfind⟩ := ih i' hi' hp'
        refine ⟨k + 1, by simpa using hk, by omega, by simpa using hPk, ?_⟩
        have hx' : P x = false := by simpa using hx
        simp [List.find?, hx', hfind]

/-- No entry of the hosted-provider precedence list is the Ollama capability.-/
theorem hostedProviders_ne_ollama (env : ResolverEnv) :
    ∀ (k : Nat) (hk : k < (hostedProviders env).length),
      ((hostedProviders env).get ⟨k, hk⟩).1 ≠ .ollama := by
  intro k hk
  simp only [hostedProviders, List.length_cons, List.length_nil] at hk
  interval_cases k <;> exact fun h => nomatch h

/-! ## Claim theorems -/

/-- C1: splitting a 25-line file in lines mode with size=10, overlap=2 and
`maxChunks` at its default (100, set by `validateConfig` from a non-positive
value) succeeds with exactly 3 chunks, whose contents are the joined lines in
the ranges [0,10), [8,18) and [16,25) of the input, in that order, and the
returned chunk count is 3. -/
theorem splitByLines_25_size10_overlap2 (lines : List String)
    (h : lines.length = 25) :
    validateConfig ⟨"lines", 10, 2, 0⟩ = .ok ⟨"lines", 10, 2, 100⟩ ∧
    splitByLines lines ⟨"lines", 10, 2, 100⟩ =
      (.ok ([String.intercalate "\n" (lines.take 10),
             String.intercalate "\n" ((lines.drop 8).take 10),
             String.intercalate "\n" ((lines.drop 16).take 9)], 3),
       [String.intercalate "\n" (lines.take 10),
        String.intercalate "\n" ((lines.drop 8).take 10),
        String.intercalate "\n" ((lines.drop 16).take 9)]) := by
  refine ⟨rfl, ?_⟩
  simp [splitByLines, chunkLoop, h]

/-- Witness for C1 at a concrete 25-line input. -/
theorem splitByLines_25_size10_overlap2_witness :
    (List.replicate 25 "L").length = 25 ∧
    (validateConfig ⟨"lines", 10, 2, 0⟩ = .ok ⟨"lines", 10, 2, 100⟩ ∧
     splitByLines (List.replicate 25 "L") ⟨"lines", 10, 2, 100⟩ =
       (.ok ([String.intercalate "\n" ((List.replicate 25 "L").take 10),
              String.intercalate "\n" (((List.replicate 25 "L").drop 8).take 10),
              String.intercalate "\n" (((List.replicate 25 "L").drop 16).take 9)],
             3),
        [String.intercalate "\n" ((List.replicate 25 "L").take 10),
         String.intercalate "\n" (((List.replicate 25 "L").drop 8).take 10),
         String.intercalate "\n" (((List.replicate 25 "L").drop 16).take 9)])) :=
  ⟨by decide, splitByLines_25_size10_overlap2 (List.replicate 25 "L") (by decide)⟩

/-- C2: in each of the three split modes, a validated configuration and a
positive unit count with `ceil(total/size)` (written as the source's
`(total + size - 1) / size`) exceeding `maxChunks` make the mode function
fail with a limit-exceeded error before writing any chunk artifact (the
second component is the write trace). -/
theorem split_limitExceeded_failfast (config c : ChunkConfig)
    (_hv : validateConfig config = .ok c) :
    (∀ lines : List String, 0 < lines.length →
      c.MaxChunks < ((lines.length : Int) + c.Size - 1) / c.Size →
      splitByLines lines c =
        (.error (.limitExceeded (((lines.length : Int) + c.Size - 1) / c.Size)
           c.MaxChunks), [])) ∧
    (∀ data : List Nat, 0 < data.length →
      c.MaxChunks < ((data.length : Int) + c.Size - 1) / c.Size →
      splitByBytes data c =
        (.error (.limitExceeded (((data.length : Int) + c.Size - 1) / c.Size)
           c.MaxChunks), [])) ∧
    (∀ lines : List String, 0 < ((lines.map goFields).flatten).length →
      c.MaxChunks <
          ((((lines.map goFields).flatten).length : Int) + c.Size - 1) / c.Size →
      splitByTokens lines c =
        (.error (.limitExceeded
           (((((lines.map goFields).flatten).length : Int) + c.Size - 1) / c.Size)
           c.MaxChunks), [])) := by
  refine ⟨?_, ?_, ?_⟩ <;> intro x hpos hgt
  · simp only [splitByLines]
    split_ifs with h1
    · exact absurd h1 (by omega)
    · rfl
  · simp only [splitByBytes]
    split_ifs with h1
    · exact absurd h1 (by omega)
    · rfl
  · simp only [splitByTokens]
    split_ifs with h1
    · exact absurd h1 (by omega)
    · rfl

/-- Witness for C2: 25 units, size 2, maxChunks 5 (ceil = 13 > 5) in each
mode. -/
theorem split_limitExceeded_failfast_witness :
    validateConfig ⟨"lines", 2, 0, 5⟩ = .ok ⟨"lines", 2, 0, 5⟩ ∧
    splitByLines (List.replicate 25 "x") ⟨"lines", 2, 0, 5⟩ =
      (.error (.limitExceeded
         ((((List.replicate 25 "x").length : Int) + 2 - 1) / 2) 5), []) ∧
    splitByBytes (List.replicate 25 7) ⟨"lines", 2, 0, 5⟩ =
      (.error (.limitExceeded
         ((((List.replicate 25 7).length : Int) + 2 - 1) / 2) 5), []) ∧
    splitByTokens (List.replicate 25 "w") ⟨"lines", 2, 0, 5⟩ =
      (.error (.limitExceeded
         ((((((List.replicate 25 "w").map goFields).flatten).length : Int) + 2 - 1)
            / 2) 5), []) := by
  have h := split_limitExceeded_failfast ⟨"lines", 2, 0, 5⟩ ⟨"lines", 2, 0, 5⟩ rfl
  exact ⟨rfl, h.1 _ (by decide) (by decide), h.2.1 _ (by decide) (by decide),
    h.2.2 _ (by decide) (by decide)⟩

/-- C7: for a validated configuration, an input with zero total units yields
exactly one chunk with empty content, in each of the three modes (for tokens,
zero units means `strings.Fields` finds no token in any line). -/
theorem split_empty_input_single_chunk (config c : ChunkConfig)
    (_hv : validateConfig config = .ok c) :
    splitByLines [] c = (.ok ([""], 1), [""]) ∧
    splitByBytes [] c = (.ok ([[]], 1), [[]]) ∧
    ∀ lines : List String, (lines.map goFields).flatten = [] →
      splitByTokens lines c = (.ok ([""], 1), [""]) := by
  refine ⟨rfl, rfl, ?_⟩
  intro lines h
  simp [splitByTokens, h]

/-- Witness for C7: an empty file in lines and bytes modes, and a
whitespace-only two-line file in tokens mode. -/
theorem split_empty_input_single_chunk_witness :
    validateConfig ⟨"tokens", 3, 1, 10⟩ = .ok ⟨"tokens", 3, 1, 10⟩ ∧
    splitByLines [] ⟨"tokens", 3, 1, 10⟩ = (.ok ([""], 1), [""]) ∧
    splitByBytes [] ⟨"tokens", 3, 1, 10⟩ = (.ok ([[]], 1), [[]]) ∧
    splitByTokens ["  ", ""] ⟨"tokens", 3, 1, 10⟩ = (.ok ([""], 1), [""]) := by
  have h := split_empty_input_single_chunk ⟨"tokens", 3, 1, 10⟩ ⟨"tokens", 3, 1, 10⟩ rfl
  exact ⟨rfl, h.1, h.2.1, h.2.2 ["  ", ""] (by decide)⟩

/-- C3 (evidence of the code bug): `validateConfig` accepts `overlap = size`
and `overlap > size` unchanged — it neither rejects nor clamps them — and
`splitByLines` then re-emits the same `[0, size)` chunk until the `maxChunks`
cap stops the non-advancing loop. -/
theorem validateConfig_accepts_overlap_ge_size :
    validateConfig ⟨"lines", 5, 5, 100⟩ = .ok ⟨"lines", 5, 5, 100⟩ ∧
    validateConfig ⟨"lines", 5, 7, 100⟩ = .ok ⟨"lines", 5, 7, 100⟩ ∧
    (splitByLines ["a", "b", "c", "d", "e", "f"] ⟨"lines", 5, 5, 3⟩).1 =
      .ok (["a\nb\nc\nd\ne", "a\nb\nc\nd\ne", "a\nb\nc\nd\ne"], 3) := by
  refine ⟨rfl, rfl, ?_⟩
  simp [splitByLines, chunkLoop]
  decide

/-- C9: for a validated configuration with `overlap ≤ size` (the loop is
total by definition — it recurses on the strictly decreasing chunk budget
`maxChunks - chunkIndex`), every mode writes at most `maxChunks` chunk
artifacts and reports a chunk count of at most `maxChunks`, even when
`overlap = size` and the start offset never advances. -/
theorem split_emits_at_most_maxChunks (config c : ChunkConfig)
    (hv : validateConfig config = .ok c) (_hov : c.Overlap ≤ c.Size) :
    (∀ lines : List String,
      ((splitByLines lines c).2).length ≤ c.MaxChunks.toNat ∧
      ∀ contents n, (splitByLines lines c).1 = .ok (contents, n) →
        contents.length ≤ c.MaxChunks.toNat ∧ (n : Int) ≤ c.MaxChunks) ∧
    (∀ data : List Nat,
      ((splitByBytes data c).2).length ≤ c.MaxChunks.toNat ∧
      ∀ contents n, (splitByBytes data c).1 = .ok (contents, n) →
        contents.length ≤ c.MaxChunks.toNat ∧ (n : Int) ≤ c.MaxChunks) ∧
    (∀ lines : List String,
      ((splitByTokens lines c).2).length ≤ c.MaxChunks.toNat ∧
      ∀ contents n, (splitByTokens lines c).1 = .ok (contents, n) →
        contents.length ≤ c.MaxChunks.toNat ∧ (n : Int) ≤ c.MaxChunks) := by
  obtain ⟨-, -, -, -, hmax⟩ := validateConfig_ok_fields hv
  have hone : 1 ≤ c.MaxChunks.toNat := by omega
  refine ⟨fun lines => ?_, fun data => ?_, fun lines => ?_⟩
  · simp only [splitByLines]
    split_ifs
    · refine ⟨by simpa using hone, ?_⟩
      intro contents n heq
      simp only [Except.ok.injEq, Prod.mk.injEq] at heq
      obtain ⟨h1, h2⟩ := heq
      subst h1; subst h2
      exact ⟨by simpa using hone, by omega⟩
    · exact ⟨by simp, fun contents n heq => heq.elim⟩
    · have hb := chunkLoop_le lines c.Size c.Overlap c.MaxChunks 0 0 [] rfl
        (by omega)
      refine ⟨by simpa using hb.1, ?_⟩
      intro contents n heq
      simp only [Except.ok.injEq, Prod.mk.injEq] at heq
      obtain ⟨h1, h2⟩ := heq
      subst h1; subst h2
      exact ⟨by simpa using hb.1, hb.2⟩
  · simp only [splitByBytes]
    split_ifs
    · refine ⟨by simpa using hone, ?_⟩
      intro contents n heq
      simp only [Except.ok.injEq, Prod.mk.injEq] at heq
      obtain ⟨h1, h2⟩ := heq
      subst h1; subst h2
      exact ⟨by simpa using hone, by omega⟩
    · exact ⟨by simp, fun contents n heq => heq.elim⟩
    · have hb := chunkLoop_le data c.Size c.Overlap c.MaxChunks 0 0 [] rfl
        (by omega)
      refine ⟨by simpa using hb.1, ?_⟩
      intro contents n heq
      simp only [Except.ok.injEq, Prod.mk.injEq] at heq
      obtain ⟨h1, h2⟩ := heq
      subst h1; subst h2
      exact ⟨by simpa using hb.1, hb.2⟩
  · simp only [splitByTokens]
    split_ifs
    · refine ⟨by simpa using hone, ?_⟩
      intro contents n heq
      simp only [Except.ok.injEq, Prod.mk.injEq] at heq
      obtain ⟨h1, h2⟩ := heq
      subst h1; subst h2
      exact ⟨by simpa using hone, by omega⟩
    · exact ⟨by simp, fun contents n heq => heq.elim⟩
    · have hb := chunkLoop_le ((lines.map goFields).flatten) c.Size c.Overlap
        c.MaxChunks 0 0 [] rfl (by omega)
      refine ⟨by simpa using hb.1, ?_⟩
      intro contents n heq
      simp only [Except.ok.injEq, Prod.mk.injEq] at heq
      obtain ⟨h1, h2⟩ := heq
      subst h1; subst h2
      exact ⟨by simpa using hb.1, hb.2⟩

/-- Witness for C9 with `overlap = size = 5` and `maxChunks = 3` on a 6-line
input: the non-advancing loop still stops at 3 artifacts. -/
theorem split_emits_at_most_maxChunks_witness :
    validateConfig ⟨"lines", 5, 5, 3⟩ = .ok ⟨"lines", 5, 5, 3⟩ ∧
    ((5 : Int) ≤ 5) ∧
    ((splitByLines ["a", "b", "c", "d", "e", "f"] ⟨"lines", 5, 5, 3⟩).2).length ≤
      (3 : Int).toNat :=
  ⟨rfl, by decide,
    ((split_emits_at_most_maxChunks ⟨"lines", 5, 5, 3⟩ ⟨"lines", 5, 5, 3⟩ rfl
        (by decide)).1 ["a", "b", "c", "d", "e", "f"]).1⟩

/-- C8: `CleanupChunks` deletes the entire scratch location (the directory and
every path under it), reports no error, is idempotent (releasing a second time
changes nothing and still reports no error), and is a no-op on a nil result or
an empty scratch location. -/
theorem CleanupChunks_release_semantics :
    (∀ (fs : String → Bool) (r : ChunkResult), r.TempDir ≠ "" →
      (CleanupChunks fs (some r)).1 r.TempDir = false ∧
      (∀ p, goStartsWith p (r.TempDir ++ "/") = true →
        (CleanupChunks fs (some r)).1 p = false) ∧
      (CleanupChunks fs (some r)).2 = none) ∧
    (∀ (fs : String → Bool) (r : ChunkResult),
      CleanupChunks (CleanupChunks fs (some r)).1 (some r) =
        CleanupChunks fs (some r)) ∧
    (∀ fs : String → Bool, CleanupChunks fs none = (fs, none)) ∧
    (∀ (fs : String → Bool) (r : ChunkResult), r.TempDir = "" →
      CleanupChunks fs (some r) = (fs, none)) := by
  refine ⟨?_, ?_, fun fs => rfl, ?_⟩
  · intro fs r h
    refine ⟨?_, ?_, ?_⟩
    · simp [CleanupChunks, h, removeAllGo]
    · intro p hp
      simp [CleanupChunks, h, removeAllGo, hp]
    · simp [CleanupChunks, h]
  · intro fs r
    by_cases h : r.TempDir = ""
    · simp [CleanupChunks, h]
    · simp only [CleanupChunks, if_neg h]
      refine Prod.ext ?_ rfl
      funext p
      simp only [removeAllGo]
      split_ifs <;> rfl
  · intro fs r h
    simp [CleanupChunks, h]

/-- Witness for C8 at a concrete filesystem and result. -/
theorem CleanupChunks_release_semantics_witness :
    (("/tmp/comanda-chunks-1" : String) ≠ "" ∧
      (CleanupChunks (fun _ => true)
        (some ⟨["/tmp/comanda-chunks-1/chunk_0.txt"], "/tmp/comanda-chunks-1", 1⟩)).1
        "/tmp/comanda-chunks-1" = false ∧
      (CleanupChunks (fun _ => true)
        (some ⟨["/tmp/comanda-chunks-1/chunk_0.txt"], "/tmp/comanda-chunks-1", 1⟩)).1
        "/tmp/comanda-chunks-1/chunk_0.txt" = false) ∧
    CleanupChunks (fun _ => true) none = (fun _ => true, none) ∧
    CleanupChunks (fun _ => true) (some ⟨[], "", 0⟩) = (fun _ => true, none) := by
  have h := CleanupChunks_release_semantics
  have h1 := h.1 (fun _ => true)
    ⟨["/tmp/comanda-chunks-1/chunk_0.txt"], "/tmp/comanda-chunks-1", 1⟩ (by decide)
  exact ⟨⟨by decide, h1.1, h1.2.1 _ (by decide)⟩,
    h.2.2.1 (fun _ => true), h.2.2.2 (fun _ => true) ⟨[], "", 0⟩ rfl⟩

/-- C10: whenever `SplitFile` fails after `validateConfig` accepted the
configuration and the scratch directory was created (any error from the
dispatched mode function: the limit check, a read failure or a write failure),
it removes the scratch directory and returns no result. -/
theorem SplitFile_error_removes_scratch (env : SplitEnv)
    (config c : ChunkConfig) (hv : validateConfig config = .ok c)
    (hmk : env.mkdirOk = true) (e : ChunkError)
    (he : (SplitFile env config).1 = .error e) :
    SplitFile env config = (.error e, .removed) := by
  have hmethod := validateConfig_method hv
  simp only [SplitFile, hv, hmk] at he ⊢
  rcases hmethod with h | h | h <;> simp only [h] at he ⊢ <;>
    first
    | (rcases henv : env.linesOutcome with e' | ok <;> simp [henv] at he ⊢ <;>
        simp [he])
    | (rcases henv : env.bytesOutcome with e' | ok <;> simp [henv] at he ⊢ <;>
        simp [he])
    | (rcases henv : env.tokensOutcome with e' | ok <;> simp [henv] at he ⊢ <;>
        simp [he])

/-- Witness for C10: a lines-mode run whose mode function reports the limit
error. -/
theorem SplitFile_error_removes_scratch_witness :
    validateConfig ⟨"lines", 2, 0, 5⟩ = .ok ⟨"lines", 2, 0, 5⟩ ∧
    (SplitFile
        ⟨true, "/tmp/comanda-chunks-1", .error (.limitExceeded 13 5),
          .ok ([], 1), .ok ([], 1)⟩ ⟨"lines", 2, 0, 5⟩).1 =
      .error (.limitExceeded 13 5) ∧
    SplitFile
        ⟨true, "/tmp/comanda-chunks-1", .error (.limitExceeded 13 5),
          .ok ([], 1), .ok ([], 1)⟩ ⟨"lines", 2, 0, 5⟩ =
      (.error (.limitExceeded 13 5), .removed) :=
  ⟨rfl, rfl,
    SplitFile_error_removes_scratch
      ⟨true, "/tmp/comanda-chunks-1", .error (.limitExceeded 13 5),
        .ok ([], 1), .ok ([], 1)⟩
      ⟨"lines", 2, 0, 5⟩ ⟨"lines", 2, 0, 5⟩ rfl rfl (.limitExceeded 13 5) rfl⟩

/-- C4: against the seeded global registry, `ValidateModel` accepts every
registered exact name verbatim, accepts any string that normalizes (trim and
lower-case) to a registered name, accepts any string whose normalization
starts with a registered family string, and returns `false` (never an error —
it is `Bool`-valued) on a string that, normalized, neither equals a
registered name nor starts with a registered family string. -/
theorem ValidateModel_membership_semantics :
    (∀ p n, n ∈ globalRegistry.models p →
      globalRegistry.ValidateModel p n = true) ∧
    (∀ p n v, n ∈ globalRegistry.models p →
      goTrimSpace (goToLower v) = n →
      globalRegistry.ValidateModel p v = true) ∧
    (∀ p v f, f ∈ globalRegistry.families p →
      goStartsWith (goTrimSpace (goToLower v)) f = true →
      globalRegistry.ValidateModel p v = true) ∧
    (∀ p v, goTrimSpace (goToLower v) ∉ globalRegistry.models p →
      (∀ f ∈ globalRegistry.families p,
        goStartsWith (goTrimSpace (goToLower v)) f = false) →
      globalRegistry.ValidateModel p v = false) := by
  refine ⟨?_, ?_, ?_, ?_⟩
  · intro p n hn
    have hfix := defaultModels_norm_fixed p n hn
    simp only [ModelRegistry.ValidateModel, Bool.or_eq_true, List.any_eq_true]
    exact Or.inl ⟨n, hn, by simp [hfix]⟩
  · intro p n v hn hv
    simp only [ModelRegistry.ValidateModel, Bool.or_eq_true, List.any_eq_true]
    exact Or.inl ⟨n, hn, by simp [hv]⟩
  · intro p v f hf hpre
    simp only [ModelRegistry.ValidateModel, Bool.or_eq_true, List.any_eq_true]
    exact Or.inr ⟨f, hf, hpre⟩
  · intro p v hmem hf
    simp only [ModelRegistry.ValidateModel, Bool.or_eq_false_iff,
      List.any_eq_false]
    constructor
    · intro x hx heq
      exact hmem ((eq_of_beq heq) ▸ hx)
    · intro f hf'
      simp [hf f hf']

/-- Witness for C4: an exact Anthropic name, a padded mixed-case variant of
it, a family-extended name, and an unrelated name. -/
theorem ValidateModel_membership_semantics_witness :
    ("claude-3-5-sonnet-20241022" ∈ globalRegistry.models "anthropic" ∧
      globalRegistry.ValidateModel "anthropic"
        "claude-3-5-sonnet-20241022" = true) ∧
    (goTrimSpace (goToLower "  CLAUDE-3-5-Sonnet-20241022  ") =
        "claude-3-5-sonnet-20241022" ∧
      globalRegistry.ValidateModel "anthropic"
        "  CLAUDE-3-5-Sonnet-20241022  " = true) ∧
    ("claude-opus-4" ∈ globalRegistry.families "anthropic" ∧
      globalRegistry.ValidateModel "anthropic" "claude-opus-4x" = true) ∧
    globalRegistry.ValidateModel "anthropic" "gpt-4o" = false := by
  have h := ValidateModel_membership_semantics
  exact ⟨⟨by decide, h.1 "anthropic" "claude-3-5-sonnet-20241022" (by decide)⟩,
    ⟨by decide,
      h.2.1 "anthropic" "claude-3-5-sonnet-20241022"
        "  CLAUDE-3-5-Sonnet-20241022  " (by decide) (by decide)⟩,
    ⟨by decide,
      h.2.2.1 "anthropic" "claude-opus-4x" "claude-opus-4" (by decide)
        (by decide)⟩,
    h.2.2.2 "anthropic" "gpt-4o" (by decide) (by decide)⟩

/-- C5: when the Ollama branch does not capture the name (it does not support
it, or the local-presence probe answered false) and two hosted capabilities at
precedence positions `i < j` both support the name, `defaultDetectProvider`
returns a matching hosted capability at a position no later than `i` — the
earlier match wins — and in particular never the local capability. -/
theorem detectProvider_precedence (env : ResolverEnv) (m : String)
    (hlocal : (env.ollamaSupports m && env.localAvailable m) = false)
    (i j : Nat) (hij : i < j) (hj : j < (hostedProviders env).length)
    (hi : ((hostedProviders env).get ⟨i, Nat.lt_trans hij hj⟩).2 m = true)
    (_hjm : ((hostedProviders env).get ⟨j, hj⟩).2 m = true) :
    ∃ (k : Nat) (hk : k < (hostedProviders env).length), k ≤ i ∧
      ((hostedProviders env).get ⟨k, hk⟩).2 m = true ∧
      defaultDetectProvider env m = ((hostedProviders env).get ⟨k, hk⟩).1 ∧
      defaultDetectProvider env m ≠ .ollama := by
  obtain ⟨k, hk, hki, hPk, hfind⟩ :=
    find_first_match (fun pr => pr.2 m) (hostedProviders env) i
      (Nat.lt_trans hij hj) hi
  have hres : defaultDetectProvider env m =
      ((hostedProviders env).get ⟨k, hk⟩).1 := by
    simp only [defaultDetectProvider, hlocal, Bool.false_eq_true, if_false,
      hfind]
  exact ⟨k, hk, hki, hPk, hres,
    hres ▸ hostedProviders_ne_ollama env k hk⟩

/-- Witness for C5: a name in the Google family that a catch-all OpenAI
predicate also claims, with Ollama claiming it but the local probe failing:
resolution picks Google (position 0), not OpenAI (position 5) and not
Ollama. -/
theorem detectProvider_precedence_witness :
    (((⟨fun _ => true, fun _ => false, fun s => goStartsWith s "gemini-",
         fun _ => false, fun _ => false, fun _ => false, fun _ => false,
         fun _ => true⟩ : ResolverEnv).ollamaSupports "gemini-2.5-pro" &&
       (⟨fun _ => true, fun _ => false, fun s => goStartsWith s "gemini-",
         fun _ => false, fun _ => false, fun _ => false, fun _ => false,
         fun _ => true⟩ : ResolverEnv).localAvailable "gemini-2.5-pro") =
      false) ∧
    ∃ (k : Nat)
      (hk : k <
        (hostedProviders
          ⟨fun _ => true, fun _ => false, fun s => goStartsWith s "gemini-",
           fun _ => false, fun _ => false, fun _ => false, fun _ => false,
           fun _ => true⟩).length), k ≤ 0 ∧
      ((hostedProviders
          ⟨fun _ => true, fun _ => false, fun s => goStartsWith s "gemini-",
           fun _ => false, fun _ => false, fun _ => false, fun _ => false,
           fun _ => true⟩).get ⟨k, hk⟩).2 "gemini-2.5-pro" = true ∧
      defaultDetectProvider
          ⟨fun _ => true, fun _ => false, fun s => goStartsWith s "gemini-",
           fun _ => false, fun _ => false, fun _ => false, fun _ => false,
           fun _ => true⟩ "gemini-2.5-pro" =
        ((hostedProviders
          ⟨fun _ => true, fun _ => false, fun s => goStartsWith s "gemini-",
           fun _ => false, fun _ => false, fun _ => false, fun _ => false,
           fun _ => true⟩).get ⟨k, hk⟩).1 ∧
      defaultDetectProvider
          ⟨fun _ => true, fun _ => false, fun s => goStartsWith s "gemini-",
           fun _ => false, fun _ => false, fun _ => false, fun _ => false,
           fun _ => true⟩ "gemini-2.5-pro" ≠ .ollama :=
  ⟨rfl,
    detectProvider_precedence
      ⟨fun _ => true, fun _ => false, fun s => goStartsWith s "gemini-",
       fun _ => false, fun _ => false, fun _ => false, fun _ => false,
       fun _ => true⟩ "gemini-2.5-pro" rfl 0 5 (by decide) (by decide)
      (by decide) (by decide)⟩

/-- C6: resolution is total with the local capability as unconditional
fallback — whenever no hosted predicate matches, `defaultDetectProvider`
returns Ollama, whatever the probe answered — and the local-presence probe
answers `false` (instead of propagating an error) on a transport error, on
any non-200 status, and on an unreadable or unparsable body. -/
theorem detectProvider_total_and_probe_failures :
    (∀ (env : ResolverEnv) (m : String),
      (∀ pr ∈ hostedProviders env, pr.2 m = false) →
      defaultDetectProvider env m = .ollama) ∧
    (∀ m, isModelAvailableLocally .transportError m = false) ∧
    (∀ m status body, status ≠ 200 →
      isModelAvailableLocally (.response status body) m = false) ∧
    (∀ m status,
      isModelAvailableLocally (.response status .readError) m = false ∧
      isModelAvailableLocally (.response status .malformed) m = false) := by
  refine ⟨?_, fun m => rfl, ?_, ?_⟩
  · intro env m hall
    simp only [defaultDetectProvider]
    split_ifs with hc
    · rfl
    · have hnone : (hostedProviders env).find? (fun pr => pr.2 m) = none :=
        List.find?_eq_none.mpr (fun x hx => by simp [hall x hx])
      simp [hnone]
  · intro m status body h
    simp [isModelAvailableLocally, h]
  · intro m status
    constructor
    all_goals simp only [isModelAvailableLocally]
    all_goals split_ifs <;> rfl

/-- Witness for C6: an environment whose hosted predicates all reject the
name while the probe answered false, and concrete failing probe responses. -/
theorem detectProvider_total_and_probe_failures_witness :
    (∀ pr ∈ hostedProviders
        ⟨fun _ => true, fun _ => false, fun _ => false, fun _ => false,
         fun _ => false, fun _ => false, fun _ => false, fun _ => false⟩,
      pr.2 "mystery-model" = false) ∧
    defaultDetectProvider
        ⟨fun _ => true, fun _ => false, fun _ => false, fun _ => false,
         fun _ => false, fun _ => false, fun _ => false, fun _ => false⟩
        "mystery-model" = .ollama ∧
    isModelAvailableLocally .transportError "mystery-model" = false ∧
    ((500 : Nat) ≠ 200 ∧
      isModelAvailableLocally (.response 500 (.parsed ["mystery-model"]))
        "mystery-model" = false) ∧
    isModelAvailableLocally (.response 200 .readError) "mystery-model" = false ∧
    isModelAvailableLocally (.response 200 .malformed) "mystery-model" = false := by
  have h := detectProvider_total_and_probe_failures
  refine ⟨by decide, ?_, h.2.1 "mystery-model",
    ⟨by decide, h.2.2.1 "mystery-model" 500 (.parsed ["mystery-model"])
      (by decide)⟩,
    (h.2.2.2 "mystery-model" 200).1, (h.2.2.2 "mystery-model" 200).2⟩
  exact h.1 _ "mystery-model" (by decide)

end Comanda
